import Mathlib

/-!
Private CDN padding removal.

A shallow embedding of `components/brave_private_cdn/private_cdn_helper.cc`:
the anonymous-namespace helper `GetPayloadExtent` and the two overloads of
`PrivateCdnHelper::RemovePadding`, one over an owned `std::string`, one over a
`base::StringPiece` view.

Modelling conventions.

* A byte is a `Fin 256`; an owned `std::string` is a `List Byte`.
* `size_t` is an unsigned integer of `w` bits: every `size_t` expression of
  the source is reduced modulo `2 ^ w` where it can wrap.  The source is built
  for targets with a 32-bit and with a 64-bit `size_t`, so `w` is a parameter;
  a `uint32_t` converts to `size_t` unchanged, which is the case for `32 ≤ w`.
* The members of `std::string` and `base::StringPiece` the source calls are
  library code outside the sources.  Those of `std::string` follow the C++
  standard, exceptions included.  Those of `base::StringPiece` state
  `n <= size()` as a precondition and the source calls them unguarded, so they
  are modelled by the assignments they make (`ptr_ += n`, `length_ -= n`) in
  `size_t` arithmetic, whatever `n` is.
* A pointer argument is an `Option`: `none` is the null pointer.
* A call that does not return normally (`std::length_error` or
  `std::out_of_range` raised in a build without exceptions) is `none` in the
  outer `Option` of the result.
-/

namespace PrivateCdn

/-- One `char` of a buffer, seen as an unsigned octet. -/
abbrev Byte := Fin 256

/-- The constant `sizeof(uint32_t)`. -/
def sizeof_uint32_t : Nat := 4

/-! ## `base::StringPiece` -/

/-- A `base::StringPiece`: a start position `ptr` inside some `storage` it does
not own, and a `length`. -/
structure StringPiece where
  storage : List Byte
  ptr : Nat
  length : Nat
  deriving DecidableEq, Repr

namespace StringPiece

/-- The accessor `size()`. -/
def size (s : StringPiece) : Nat := s.length

/-- The accessor `data()`: the bytes of the storage from the start of the view on. -/
def data (s : StringPiece) : List Byte := s.storage.drop s.ptr

/-- The bytes a view denotes. -/
def bytes (s : StringPiece) : List Byte := (s.storage.drop s.ptr).take s.length

/-- The implicit conversion of a `std::string` to a view of all of it. -/
def ofString (s : List Byte) : StringPiece := ⟨s, 0, s.length⟩

/-- A view lies inside its storage, and the storage is addressable with `w` bits. -/
def WellFormed (w : Nat) (s : StringPiece) : Prop :=
  s.ptr + s.length ≤ s.storage.length ∧ s.storage.length < 2 ^ w

instance (w : Nat) (s : StringPiece) : Decidable (WellFormed w s) := by
  unfold WellFormed
  exact inferInstance

/-- The library member `remove_prefix(n)`: `ptr_ += n; length_ -= n`, the
subtraction taken in `size_t`.  The library names `n <= size()` as the
precondition; nothing in the source checks it, so the two assignments are
carried out whatever `n` is. -/
def remove_prefix (w : Nat) (s : StringPiece) (n : Nat) : StringPiece :=
  { s with ptr := s.ptr + n, length := (s.length + 2 ^ w - n % 2 ^ w) % 2 ^ w }

/-- The library member `remove_suffix(n)`: `length_ -= n`, the subtraction taken
in `size_t`.  The library names `n <= size()` as the precondition; nothing in
the source checks it, so the assignment is carried out whatever `n` is. -/
def remove_suffix (w : Nat) (s : StringPiece) (n : Nat) : StringPiece :=
  { s with length := (s.length + 2 ^ w - n % 2 ^ w) % 2 ^ w }

end StringPiece

/-! ## `std::string` members used by the source -/

/-- The library member `std::string::erase(pos, n)`: removes
`min(n, size() - pos)` bytes from `pos` on; `pos > size()` raises
`std::out_of_range`. -/
def erase (s : List Byte) (pos n : Nat) : Option (List Byte) :=
  if s.length < pos then none
  else some (s.take pos ++ s.drop (pos + min n (s.length - pos)))

/-- The library member `std::string::resize(n)`, with `max_size() = maxSize`:
truncates to `n` bytes, or appends value-initialised (zero) bytes up to `n`;
`n > max_size()` raises `std::length_error`. -/
def resize (maxSize : Nat) (s : List Byte) (n : Nat) : Option (List Byte) :=
  if n ≤ s.length then some (s.take n)
  else if maxSize < n then none
  else some (s ++ List.replicate (n - s.length) 0)

/-! ## `base::ReadBigEndian` -/

/-- Modelled from the spec: `base::ReadBigEndian` of `base/big_endian.h` is not
among the sources.  It reads the first 4 bytes at `buf` as an unsigned 32-bit
big-endian integer, accumulated most significant byte first in a `uint32_t`. -/
def ReadBigEndian (buf : List Byte) : Nat :=
  (buf.take 4).foldl (fun out b => (out * 256 + b.val) % 2 ^ 32) 0

/-! ## `GetPayloadExtent` -/

/-- The two `return false` sites of `GetPayloadExtent`, named after the
comments they carry. -/
inductive ExtentFailure where
  | MissingLengthField
  | PayloadTooShort
  deriving DecidableEq, Repr

deriving instance DecidableEq for Except

/-- The helper `GetPayloadExtent(padded_string, &start, &length)`.  The result
`.ok (start, length)` is `return true` with both out-parameters set; `.error`
is `return false` at the named site.  The sum `data_length + sizeof(uint32_t)`
is a `size_t` sum, hence reduced modulo `2 ^ w`. -/
def GetPayloadExtent (w : Nat) (padded_string : StringPiece) :
    Except ExtentFailure (Nat × Nat) :=
  if padded_string.size < sizeof_uint32_t then
    .error .MissingLengthField
  else
    let data_length := ReadBigEndian padded_string.data
    if padded_string.size < (data_length + sizeof_uint32_t) % 2 ^ w then
      .error .PayloadTooShort
    else
      .ok (sizeof_uint32_t, data_length)

/-- The boolean `GetPayloadExtent` returns. -/
def extentFound (r : Except ExtentFailure (Nat × Nat)) : Bool :=
  match r with
  | .ok _ => true
  | .error _ => false

/-! ## `PrivateCdnHelper::RemovePadding` -/

/-- The overload `PrivateCdnHelper::RemovePadding(std::string* padded_string)`.
The result `some (b, s)` is a normal return of `b` with the pointee left as
`s`. -/
def RemovePadding (w maxSize : Nat) (padded_string : Option (List Byte)) :
    Option (Bool × Option (List Byte)) :=
  match padded_string with
  | none => some (false, none)
  | some s =>
    match GetPayloadExtent w (StringPiece.ofString s) with
    | .error _ => some (false, some s)
    | .ok (start, length) =>
      (erase s 0 start).bind fun s1 =>
      (resize maxSize s1 length).bind fun s2 =>
      some (true, some s2)

/-- The overload `PrivateCdnHelper::RemovePadding(base::StringPiece* padded_string)`.
The argument of `remove_suffix` is the `size_t` difference
`padded_string->size() - length`, reduced modulo `2 ^ w`.  The result has the
shape of the owned overload's; this overload always returns. -/
def RemovePaddingPiece (w : Nat) (padded_string : Option StringPiece) :
    Option (Bool × Option StringPiece) :=
  match padded_string with
  | none => some (false, none)
  | some v =>
    match GetPayloadExtent w v with
    | .error _ => some (false, some v)
    | .ok (start, length) =>
      let v1 := StringPiece.remove_prefix w v start
      let v2 := StringPiece.remove_suffix w v1 ((v1.size + 2 ^ w - length) % 2 ^ w)
      some (true, some v2)

/-! ## The envelope the round-trip scenario builds -/

/-- The 4-byte big-endian encoding of `n`, most significant byte first. -/
def bigEndian32 (n : Nat) : List Byte :=
  [Fin.ofNat (n / 2 ^ 24), Fin.ofNat (n / 2 ^ 16), Fin.ofNat (n / 2 ^ 8), Fin.ofNat n]

/-- The padded buffer `[big-endian(L)][P][K zero bytes]` for a payload `P` of length `L`. -/
def padBuffer (P : List Byte) (K : Nat) : List Byte :=
  bigEndian32 P.length ++ P ++ List.replicate K 0

/-- The header as the specification reads it: the big-endian value
`B[0]*2^24 + B[1]*2^16 + B[2]*2^8 + B[3]` of the first four bytes. -/
def headerValue (B : List Byte) : Nat :=
  (B.getD 0 0).val * 2 ^ 24 + (B.getD 1 0).val * 2 ^ 16 + (B.getD 2 0).val * 2 ^ 8
    + (B.getD 3 0).val

/-- The exact-arithmetic acceptance test of the specification (`computeExtent`):
at least 4 bytes, and at least `declared_length + 4` bytes in unbounded integers. -/
def specAccepts (B : List Byte) : Prop :=
  4 ≤ B.length ∧ headerValue B + 4 ≤ B.length

instance (B : List Byte) : Decidable (specAccepts B) := by
  unfold specAccepts
  exact inferInstance

/-! ## Lemmas on the header -/

theorem foldl_header_lt (l : List Byte) (acc : Nat) (hacc : acc < 2 ^ 32) :
    l.foldl (fun out b => (out * 256 + b.val) % 2 ^ 32) acc < 2 ^ 32 := by
  induction l generalizing acc with
  | nil => simpa using hacc
  | cons b t ih =>
    simp only [List.foldl_cons]
    exact ih _ (Nat.mod_lt _ (by norm_num))

theorem ReadBigEndian_lt (buf : List Byte) : ReadBigEndian buf < 2 ^ 32 :=
  foldl_header_lt _ 0 (by norm_num)

theorem ReadBigEndian_eq_headerValue (B : List Byte) (h : 4 ≤ B.length) :
    ReadBigEndian B = headerValue B := by
  match B, h with
  | b0 :: b1 :: b2 :: b3 :: rest, _ =>
    have h0 := b0.isLt
    have h1 := b1.isLt
    have h2 := b2.isLt
    have h3 := b3.isLt
    simp only [ReadBigEndian, headerValue, List.take, List.foldl, List.getD_cons_zero,
      List.getD_cons_succ]
    norm_num
    omega

theorem headerValue_bigEndian32 (n : Nat) (hn : n < 2 ^ 32) (rest : List Byte) :
    headerValue (bigEndian32 n ++ rest) = n := by
  simp only [headerValue, bigEndian32, List.cons_append, List.nil_append,
    List.getD_cons_zero, List.getD_cons_succ, Fin.ofNat, Fin.val_mk]
  norm_num at hn ⊢
  omega

/-- A view's `data()` holds at least `size()` bytes when the view lies in its storage. -/
theorem StringPiece.length_le_data (v : StringPiece) (h : v.ptr + v.length ≤ v.storage.length) :
    v.length ≤ v.data.length := by
  simp only [StringPiece.data, List.length_drop]
  omega

/-! ## Lemmas on `GetPayloadExtent` and the two overloads -/

theorem ofString_data (B : List Byte) : (StringPiece.ofString B).data = B := by
  simp [StringPiece.ofString, StringPiece.data]

theorem ofString_size (B : List Byte) : (StringPiece.ofString B).size = B.length := rfl

theorem ofString_bytes (B : List Byte) : (StringPiece.ofString B).bytes = B := by
  simp [StringPiece.ofString, StringPiece.bytes]

theorem GetPayloadExtent_ok_iff (w : Nat) (v : StringPiece) (r : Nat × Nat) :
    GetPayloadExtent w v = .ok r ↔
      4 ≤ v.size ∧ (ReadBigEndian v.data + 4) % 2 ^ w ≤ v.size
        ∧ r = (4, ReadBigEndian v.data) := by
  unfold GetPayloadExtent sizeof_uint32_t
  by_cases h1 : v.size < 4
  · simp [h1]
  · by_cases h2 : v.size < (ReadBigEndian v.data + 4) % 2 ^ w
    · simp [h1, h2]
    · simp [h1, h2]
      constructor
      · intro h
        exact ⟨by omega, by omega, h.symm⟩
      · intro h
        exact h.2.2.symm

theorem GetPayloadExtent_of_fits (w : Nat) (v : StringPiece) (hN : v.size < 2 ^ w)
    (h4 : 4 ≤ v.size) (hd : ReadBigEndian v.data + 4 ≤ v.size) :
    GetPayloadExtent w v = .ok (4, ReadBigEndian v.data) := by
  rw [GetPayloadExtent_ok_iff]
  refine ⟨h4, ?_, rfl⟩
  rw [Nat.mod_eq_of_lt (by omega)]
  exact hd

/-- Without wrap-around a `size_t` difference is the exact difference. -/
theorem size_sub_exact (w a b : Nat) (ha : a < 2 ^ w) (hb : b ≤ a) :
    (a + 2 ^ w - b) % 2 ^ w = a - b := by
  have h : a + 2 ^ w - b = (a - b) + 2 ^ w := by omega
  rw [h, Nat.add_mod_right, Nat.mod_eq_of_lt (by omega)]

/-- A wrapped `size_t` difference is larger than the minuend. -/
theorem size_sub_wrapped (w a b : Nat) (hb : b < 2 ^ w) (hab : a < b) :
    a < (a + 2 ^ w - b) % 2 ^ w := by
  rw [Nat.mod_eq_of_lt (by omega)]
  omega

/-- Erasing from position 0 drops a prefix, whatever the count. -/
theorem erase_zero (s : List Byte) (n : Nat) : erase s 0 n = some (s.drop n) := by
  simp only [erase, Nat.not_lt_zero, if_false, List.take_zero, List.nil_append, Nat.zero_add,
    Nat.sub_zero, Option.some.injEq]
  by_cases h : n ≤ s.length
  · rw [Nat.min_eq_left h]
  · rw [Nat.min_eq_right (by omega), List.drop_length, List.drop_eq_nil_of_le (by omega)]

theorem resize_truncates (maxSize : Nat) (s : List Byte) (n : Nat) (h : n ≤ s.length) :
    resize maxSize s n = some (s.take n) := by
  simp [resize, h]

theorem RemovePadding_of_fits (w maxSize : Nat) (B : List Byte) (hN : B.length < 2 ^ w)
    (h4 : 4 ≤ B.length) (hd : ReadBigEndian B + 4 ≤ B.length) :
    RemovePadding w maxSize (some B)
      = some (true, some ((B.drop 4).take (ReadBigEndian B))) := by
  have hext := GetPayloadExtent_of_fits w (StringPiece.ofString B)
    (by rw [ofString_size]; exact hN) (by rw [ofString_size]; exact h4)
    (by rw [ofString_size, ofString_data]; exact hd)
  rw [ofString_data] at hext
  have hlen : ReadBigEndian B ≤ (List.drop 4 B).length := by
    rw [List.length_drop]
    omega
  simp only [RemovePadding, hext]
  rw [erase_zero, Option.some_bind, resize_truncates _ _ _ hlen, Option.some_bind]

/-- Subtracting a wrapped `size_t` difference `a - d` from `a` gives `d` back. -/
theorem size_sub_sub (w a d : Nat) (ha : a < 2 ^ w) (hd : d < 2 ^ w) :
    (a + 2 ^ w - ((a + 2 ^ w - d) % 2 ^ w) % 2 ^ w) % 2 ^ w = d := by
  rw [Nat.mod_mod]
  by_cases hle : d ≤ a
  · rw [size_sub_exact w a d ha hle]
    have h : a + 2 ^ w - (a - d) = d + 2 ^ w := by omega
    rw [h, Nat.add_mod_right, Nat.mod_eq_of_lt hd]
  · have hn : (a + 2 ^ w - d) % 2 ^ w = a + 2 ^ w - d := Nat.mod_eq_of_lt (by omega)
    have h : a + 2 ^ w - (a + 2 ^ w - d) = d := by omega
    rw [hn, h, Nat.mod_eq_of_lt hd]

theorem RemovePadding_error (w maxSize : Nat) (B : List Byte) (e : ExtentFailure)
    (h : GetPayloadExtent w (StringPiece.ofString B) = .error e) :
    RemovePadding w maxSize (some B) = some (false, some B) := by
  simp only [RemovePadding, h]

theorem RemovePaddingPiece_error (w : Nat) (v : StringPiece) (e : ExtentFailure)
    (h : GetPayloadExtent w v = .error e) :
    RemovePaddingPiece w (some v) = some (false, some v) := by
  simp only [RemovePaddingPiece, h]

/-- The owned overload after a successful `GetPayloadExtent`. -/
theorem RemovePadding_ok (w maxSize : Nat) (B : List Byte) (r : Nat × Nat)
    (h : GetPayloadExtent w (StringPiece.ofString B) = .ok r) :
    RemovePadding w maxSize (some B)
      = (resize maxSize (B.drop 4) (ReadBigEndian B)).bind fun s2 => some (true, some s2) := by
  have hr := ((GetPayloadExtent_ok_iff w _ r).1 h).2.2
  rw [ofString_data] at hr
  subst hr
  simp only [RemovePadding, h]
  rw [erase_zero, Option.some_bind]

/-- The view overload after a successful `GetPayloadExtent`: it returns `true`. -/
theorem RemovePaddingPiece_ok (w : Nat) (v : StringPiece) (r : Nat × Nat)
    (h : GetPayloadExtent w v = .ok r) :
    RemovePaddingPiece w (some v)
      = some (true, some (StringPiece.remove_suffix w ( StringPiece.remove_prefix w v 4)
          ((( StringPiece.remove_prefix w v 4).size + 2 ^ w - ReadBigEndian v.data)
            % 2 ^ w))) := by
  have hr := ((GetPayloadExtent_ok_iff w _ r).1 h).2.2
  subst hr
  simp only [RemovePaddingPiece, h]

/-- The view overload after a successful `GetPayloadExtent`, on a view a `size_t`
can measure: the resulting view starts 4 further and has the declared length,
whether or not that length fits. -/
theorem RemovePaddingPiece_ok_view (w : Nat) (v : StringPiece) (r : Nat × Nat)
    (hN : v.length < 2 ^ w) (hd : ReadBigEndian v.data < 2 ^ w)
    (h : GetPayloadExtent w v = .ok r) :
    RemovePaddingPiece w (some v)
      = some (true, some ⟨v.storage, v.ptr + 4, ReadBigEndian v.data⟩) := by
  have h4 : 4 ≤ v.length := ((GetPayloadExtent_ok_iff w _ r).1 h).1
  have h4mod : 4 % 2 ^ w = 4 := Nat.mod_eq_of_lt (by omega)
  have hpre : (v.length + 2 ^ w - 4) % 2 ^ w = v.length - 4 :=
    size_sub_exact w v.length 4 hN h4
  have hsuf := size_sub_sub w (v.length - 4) (ReadBigEndian v.data) (by omega) hd
  rw [RemovePaddingPiece_ok w v r h]
  simp only [StringPiece.remove_prefix, StringPiece.remove_suffix, StringPiece.size, h4mod,
    hpre, hsuf]

theorem RemovePaddingPiece_of_fits (w : Nat) (v : StringPiece) (hN : v.size < 2 ^ w)
    (h4 : 4 ≤ v.size) (hd : ReadBigEndian v.data + 4 ≤ v.size) :
    RemovePaddingPiece w (some v)
      = some (true, some ⟨v.storage, v.ptr + 4, ReadBigEndian v.data⟩) :=
  RemovePaddingPiece_ok_view w v _ hN (by omega) (GetPayloadExtent_of_fits w v hN h4 hd)

/-- A normal `true` return of the owned overload means the declared payload fits. -/
theorem RemovePadding_true_fits (w maxSize : Nat) (B : List Byte) (r : Option (List Byte))
    (hmax : maxSize + 4 < 2 ^ w)
    (h : RemovePadding w maxSize (some B) = some (true, r)) :
    4 ≤ B.length ∧ ReadBigEndian B + 4 ≤ B.length := by
  cases hext : GetPayloadExtent w (StringPiece.ofString B) with
  | error e =>
    rw [RemovePadding_error w maxSize B e hext] at h
    simp at h
  | ok r0 =>
    have hall := (GetPayloadExtent_ok_iff w _ r0).1 hext
    rw [ofString_size, ofString_data] at hall
    refine ⟨hall.1, ?_⟩
    rw [RemovePadding_ok w maxSize B r0 hext] at h
    by_cases hfit : ReadBigEndian B ≤ (B.drop 4).length
    · rw [List.length_drop] at hfit
      omega
    · by_cases hbig : maxSize < ReadBigEndian B
      · simp only [resize, hfit, hbig, if_true, if_false, Option.none_bind] at h
        simp at h
      · have hmod : (ReadBigEndian B + 4) % 2 ^ w = ReadBigEndian B + 4 :=
          Nat.mod_eq_of_lt (by omega)
        have := hall.2.1
        rw [hmod] at this
        exact this

/-- On a build whose `size_t` holds `2^32 + 3`, a `true` return of the view
overload means the declared payload fits. -/
theorem RemovePaddingPiece_true_fits (w : Nat) (v : StringPiece) (r : Option StringPiece)
    (hw : 2 ^ 32 + 4 ≤ 2 ^ w)
    (h : RemovePaddingPiece w (some v) = some (true, r)) :
    4 ≤ v.length ∧ ReadBigEndian v.data + 4 ≤ v.length := by
  cases hext : GetPayloadExtent w v with
  | error e =>
    rw [RemovePaddingPiece_error w v e hext] at h
    simp at h
  | ok r0 =>
    have hall := (GetPayloadExtent_ok_iff w _ r0).1 hext
    have hlt := ReadBigEndian_lt v.data
    have hmod : (ReadBigEndian v.data + 4) % 2 ^ w = ReadBigEndian v.data + 4 :=
      Nat.mod_eq_of_lt (by omega)
    rw [hmod] at hall
    exact ⟨hall.1, hall.2.1⟩

theorem padBuffer_length (P : List Byte) (K : Nat) :
    (padBuffer P K).length = 4 + P.length + K := by
  simp [padBuffer, bigEndian32]
  omega

theorem padBuffer_drop (P : List Byte) (K : Nat) :
    (padBuffer P K).drop 4 = P ++ List.replicate K 0 := by
  simp [padBuffer, bigEndian32]

theorem padBuffer_header (P : List Byte) (K : Nat) (hL : P.length < 2 ^ 32) :
    ReadBigEndian (padBuffer P K) = P.length := by
  rw [ReadBigEndian_eq_headerValue _ (by rw [padBuffer_length]; omega)]
  unfold padBuffer
  rw [List.append_assoc]
  exact headerValue_bigEndian32 _ hL _

/-- On a build whose `size_t` holds `2^32 + 3`, `GetPayloadExtent` accepts exactly the
buffers the exact-arithmetic test accepts. -/
theorem GetPayloadExtent_exact_of_wide (w : Nat) (B : List Byte) (hw : 2 ^ 32 + 4 ≤ 2 ^ w) :
    extentFound (GetPayloadExtent w (StringPiece.ofString B)) = true ↔ specAccepts B := by
  have hlt := ReadBigEndian_lt B
  have hmod : (ReadBigEndian B + 4) % 2 ^ w = ReadBigEndian B + 4 :=
    Nat.mod_eq_of_lt (by omega)
  unfold specAccepts
  constructor
  · intro h
    cases hext : GetPayloadExtent w (StringPiece.ofString B) with
    | error e => simp [hext, extentFound] at h
    | ok r0 =>
      have hall := (GetPayloadExtent_ok_iff w _ r0).1 hext
      rw [ofString_size, ofString_data, hmod] at hall
      rw [← ReadBigEndian_eq_headerValue B hall.1]
      exact ⟨hall.1, hall.2.1⟩
  · intro h
    rw [← ReadBigEndian_eq_headerValue B h.1] at h
    have hok : GetPayloadExtent w (StringPiece.ofString B) = .ok (4, ReadBigEndian B) := by
      rw [GetPayloadExtent_ok_iff, ofString_size, ofString_data, hmod]
      exact ⟨h.1, h.2, rfl⟩
    simp [hok, extentFound]

theorem headerValue_take (B : List Byte) (n : Nat) (hn : 4 ≤ n) :
    headerValue (B.take n) = headerValue B := by
  have h0 : 0 < n := by omega
  have h1 : 1 < n := by omega
  have h2 : 2 < n := by omega
  have h3 : 3 < n := by omega
  simp only [headerValue, List.getD_eq_getElem?_getD, List.getElem?_take_of_lt h0,
    List.getElem?_take_of_lt h1, List.getElem?_take_of_lt h2, List.getElem?_take_of_lt h3]

/-- On a build whose `size_t` holds `2^32 + 3`, a buffer shorter than its header
announces is refused at the second check by all three functions. -/
theorem shortfall_of_wide (w maxSize : Nat) (B : List Byte) (hw : 2 ^ 32 + 4 ≤ 2 ^ w)
    (h4 : 4 ≤ B.length) (hshort : B.length < headerValue B + 4) :
    GetPayloadExtent w (StringPiece.ofString B) = .error .PayloadTooShort
    ∧ RemovePadding w maxSize (some B) = some (false, some B)
    ∧ RemovePaddingPiece w (some (StringPiece.ofString B))
        = some (false, some (StringPiece.ofString B)) := by
  have hlt := ReadBigEndian_lt B
  rw [← ReadBigEndian_eq_headerValue B h4] at hshort
  have hmod : (ReadBigEndian B + 4) % 2 ^ w = ReadBigEndian B + 4 :=
    Nat.mod_eq_of_lt (by omega)
  have h1 : ¬ (StringPiece.ofString B).size < 4 := by
    rw [ofString_size]
    omega
  have h2 : (StringPiece.ofString B).size
      < (ReadBigEndian (StringPiece.ofString B).data + 4) % 2 ^ w := by
    rw [ofString_size, ofString_data, hmod]
    exact hshort
  have hext : GetPayloadExtent w (StringPiece.ofString B) = .error .PayloadTooShort := by
    simp only [GetPayloadExtent, sizeof_uint32_t, h1, h2, if_true, if_false]
  exact ⟨hext, RemovePadding_error w maxSize B _ hext, RemovePaddingPiece_error w _ _ hext⟩

/-- On a build whose `size_t` holds `2^32 + 3`, both overloads compute the same
outcome on the same bytes: the same return value and the same bytes left. -/
theorem RemovePadding_eq_view (w maxSize : Nat) (B : List Byte) (hw : 2 ^ 32 + 4 ≤ 2 ^ w)
    (hN : B.length < 2 ^ w) :
    RemovePadding w maxSize (some B)
      = (RemovePaddingPiece w (some (StringPiece.ofString B))).map
          fun r => (r.1, r.2.map StringPiece.bytes) := by
  cases hext : GetPayloadExtent w (StringPiece.ofString B) with
  | error e =>
    rw [RemovePadding_error w maxSize B e hext, RemovePaddingPiece_error w _ e hext]
    simp [ofString_bytes]
  | ok r0 =>
    have hall := (GetPayloadExtent_ok_iff w _ r0).1 hext
    rw [ofString_size, ofString_data] at hall
    have hlt := ReadBigEndian_lt B
    have hmod : (ReadBigEndian B + 4) % 2 ^ w = ReadBigEndian B + 4 :=
      Nat.mod_eq_of_lt (by omega)
    rw [hmod] at hall
    rw [RemovePadding_of_fits w maxSize B hN hall.1 hall.2.1,
      RemovePaddingPiece_of_fits w _ (by rw [ofString_size]; exact hN)
        (by rw [ofString_size]; exact hall.1)
        (by rw [ofString_size, ofString_data]; exact hall.2.1)]
    simp [StringPiece.bytes, StringPiece.ofString, StringPiece.data]

/-- The header a view reads at `data()` is the header of the bytes it denotes. -/
theorem ReadBigEndian_data_eq (v : StringPiece) (hin : v.ptr + v.length ≤ v.storage.length)
    (h4 : 4 ≤ v.length) : ReadBigEndian v.data = headerValue v.bytes := by
  have hlen := StringPiece.length_le_data v hin
  rw [ReadBigEndian_eq_headerValue v.data (by omega)]
  exact (headerValue_take v.data v.length h4).symm

/-! ## The claims -/

/-- C1 (round trip). For every payload `P` whose length fits in 32 bits and every
padding length `K`, on a buffer `bigEndian32(L) ++ P ++ K zero bytes` that a
`size_t` of `w` bits can measure, the owned overload returns `true` and leaves
exactly `P` in the buffer. -/
theorem RemovePadding_round_trip (w maxSize : Nat) (P : List Byte) (K : Nat)
    (hL : P.length < 2 ^ 32) (hN : (padBuffer P K).length < 2 ^ w) :
    RemovePadding w maxSize (some (padBuffer P K)) = some (true, some P) := by
  have hhdr := padBuffer_header P K hL
  have hlen := padBuffer_length P K
  rw [RemovePadding_of_fits w maxSize _ hN (by omega) (by omega), hhdr, padBuffer_drop]
  simp

/-- C1, the scenario of the specification on a 32-bit build: the bytes
`00 00 00 05 48 65 6C 6C 6F 00 00 00` unpad to `Hello`. -/
theorem RemovePadding_round_trip_hello :
    ([0x48, 0x65, 0x6C, 0x6C, 0x6F] : List Byte).length < 2 ^ 32
    ∧ (padBuffer [0x48, 0x65, 0x6C, 0x6C, 0x6F] 3).length < 2 ^ 32
    ∧ padBuffer [0x48, 0x65, 0x6C, 0x6C, 0x6F] 3
        = [0x00, 0x00, 0x00, 0x05, 0x48, 0x65, 0x6C, 0x6C, 0x6F, 0x00, 0x00, 0x00]
    ∧ RemovePadding 32 (2 ^ 32 - 17) (some (padBuffer [0x48, 0x65, 0x6C, 0x6C, 0x6F] 3))
        = some (true, some [0x48, 0x65, 0x6C, 0x6C, 0x6F]) :=
  ⟨by decide, by decide, by decide,
    RemovePadding_round_trip 32 (2 ^ 32 - 17) [0x48, 0x65, 0x6C, 0x6C, 0x6F] 3
      (by decide) (by decide)⟩

/-- C2 (success postcondition of the owned form). With a `max_size()` at least 4
below the largest `size_t`, whenever the owned overload returns `true` on a
buffer `B` with header value `d`, the payload fits (`4 + d ≤ |B|`) and the
buffer afterwards is the original slice `B[4 .. 4+d)`: its length is exactly
`d` and its `i`-th byte is the original byte at `4 + i`, none added or altered. -/
theorem RemovePadding_success_postcondition (w maxSize : Nat) (B : List Byte)
    (r : Option (List Byte)) (hmax : maxSize + 4 < 2 ^ w)
    (h : RemovePadding w maxSize (some B) = some (true, r)) :
    ∃ B', r = some B' ∧ B'.length = headerValue B ∧ 4 + headerValue B ≤ B.length
      ∧ B' = (B.drop 4).take (headerValue B)
      ∧ ∀ i, i < headerValue B → B'[i]? = B[4 + i]? := by
  obtain ⟨h4, hd⟩ := RemovePadding_true_fits w maxSize B r hmax h
  have hfit : ReadBigEndian B ≤ (B.drop 4).length := by
    rw [List.length_drop]
    omega
  cases hext : GetPayloadExtent w (StringPiece.ofString B) with
  | error e =>
    rw [RemovePadding_error w maxSize B e hext] at h
    simp at h
  | ok r0 =>
    rw [RemovePadding_ok w maxSize B r0 hext, resize_truncates _ _ _ hfit,
      Option.some_bind] at h
    rw [ReadBigEndian_eq_headerValue B h4] at h hd hfit
    refine ⟨(B.drop 4).take (headerValue B), ?_, ?_, by omega, rfl, ?_⟩
    · simpa using h.symm
    · rw [List.length_take]
      omega
    · intro i hi
      rw [List.getElem?_take_of_lt hi, List.getElem?_drop]

/-- C2 at the scenario of the specification: the hypothesis holds there. -/
theorem RemovePadding_success_postcondition_hello :
    ∃ B', (some [0x48, 0x65, 0x6C, 0x6C, 0x6F] : Option (List Byte)) = some B'
      ∧ B'.length = headerValue [0, 0, 0, 5, 0x48, 0x65, 0x6C, 0x6C, 0x6F, 0, 0, 0]
      ∧ 4 + headerValue [0, 0, 0, 5, 0x48, 0x65, 0x6C, 0x6C, 0x6F, 0, 0, 0]
          ≤ ([0, 0, 0, 5, 0x48, 0x65, 0x6C, 0x6C, 0x6F, 0, 0, 0] : List Byte).length
      ∧ B' = (List.drop 4 [0, 0, 0, 5, 0x48, 0x65, 0x6C, 0x6C, 0x6F, 0, 0, 0]).take
          (headerValue [0, 0, 0, 5, 0x48, 0x65, 0x6C, 0x6C, 0x6F, 0, 0, 0])
      ∧ ∀ i, i < headerValue [0, 0, 0, 5, 0x48, 0x65, 0x6C, 0x6C, 0x6F, 0, 0, 0] →
          B'[i]? = ([0, 0, 0, 5, 0x48, 0x65, 0x6C, 0x6C, 0x6F, 0, 0, 0] : List Byte)[4 + i]? :=
  RemovePadding_success_postcondition 64 (2 ^ 64 - 17)
    [0, 0, 0, 5, 0x48, 0x65, 0x6C, 0x6C, 0x6F, 0, 0, 0] (some [0x48, 0x65, 0x6C, 0x6C, 0x6F])
    (by decide) (by decide)

/-- C3 (characterisation of `GetPayloadExtent`), on a build with a 32-bit
`size_t`, at the 4-byte buffer `FF FF FF FF`: the header value is
`d = 4294967295`, the exact-arithmetic test `N >= d + 4` fails (`4 < 4294967299`),
and `GetPayloadExtent` still returns `true` with `start = 4`, `length = d`,
because `d + 4` was reduced to `3`. -/
theorem GetPayloadExtent_accepts_wrapped_header :
    headerValue [255, 255, 255, 255] = 4294967295
    ∧ ¬ specAccepts [255, 255, 255, 255]
    ∧ (4294967295 + sizeof_uint32_t) % 2 ^ 32 = 3
    ∧ GetPayloadExtent 32 (StringPiece.ofString [255, 255, 255, 255])
        = .ok (4, 4294967295) := by
  decide

/-- C4 (overflow guard), on a build with a 32-bit `size_t`, at the 5-byte buffer
`FF FF FF FF 41`: `d + 4 >= 2^32` and `N = 5 < d + 4`, yet `GetPayloadExtent`
returns `true`; neither overload returns `false`: the owned one calls
`resize(4294967295)` on the 1 remaining byte, beyond `max_size()`, the view one calls
`remove_suffix(2)` on a 1-byte view and returns `true` with a view of length
`4294967295`. -/
theorem RemovePadding_no_overflow_guard_at_32 :
    2 ^ 32 ≤ headerValue [255, 255, 255, 255, 0x41] + 4
    ∧ ([255, 255, 255, 255, 0x41] : List Byte).length
        < headerValue [255, 255, 255, 255, 0x41] + 4
    ∧ GetPayloadExtent 32 (StringPiece.ofString [255, 255, 255, 255, 0x41])
        = .ok (4, 4294967295)
    ∧ resize (2 ^ 32 - 17) [0x41] 4294967295 = none
    ∧ RemovePadding 32 (2 ^ 32 - 17) (some [255, 255, 255, 255, 0x41]) = none
    ∧ StringPiece.remove_suffix 32 ⟨[255, 255, 255, 255, 0x41], 4, 1⟩ 2
        = ⟨[255, 255, 255, 255, 0x41], 4, 4294967295⟩
    ∧ RemovePaddingPiece 32 (some (StringPiece.ofString [255, 255, 255, 255, 0x41]))
        = some (true, some ⟨[255, 255, 255, 255, 0x41], 4, 4294967295⟩) := by
  decide

/-- C5 (non-mutation on failure). Whenever either overload returns `false`, the
pointee is what it was before the call: the same bytes and length for the owned
buffer, the same storage, start and length for the view (and a null pointer
stays null). -/
theorem RemovePadding_failure_leaves_input (w maxSize : Nat) (p : Option (List Byte))
    (v : Option StringPiece) :
    (∀ r, RemovePadding w maxSize p = some (false, r) → r = p)
    ∧ (∀ r, RemovePaddingPiece w v = some (false, r) → r = v) := by
  constructor
  · intro r h
    cases p with
    | none => simpa [RemovePadding] using h.symm
    | some B =>
      cases hext : GetPayloadExtent w (StringPiece.ofString B) with
      | error e =>
        rw [RemovePadding_error w maxSize B e hext] at h
        simpa using h.symm
      | ok r0 =>
        rw [RemovePadding_ok w maxSize B r0 hext] at h
        cases hres : resize maxSize (B.drop 4) (ReadBigEndian B) with
        | none => simp [hres] at h
        | some s2 => simp [hres] at h
  · intro r h
    cases v with
    | none => simpa [RemovePaddingPiece] using h.symm
    | some u =>
      cases hext : GetPayloadExtent w u with
      | error e =>
        rw [RemovePaddingPiece_error w u e hext] at h
        simpa using h.symm
      | ok r0 =>
        rw [RemovePaddingPiece_ok w u r0 hext] at h
        simp at h

/-- C5 at the truncated buffer `00 00 00 05 48 65`: both overloads return
`false` there, and the theorem gives back the input. -/
theorem RemovePadding_failure_leaves_input_truncated :
    RemovePadding 64 (2 ^ 64 - 17) (some [0, 0, 0, 5, 0x48, 0x65])
        = some (false, some [0, 0, 0, 5, 0x48, 0x65])
    ∧ RemovePaddingPiece 64 (some ⟨[7, 0, 0, 0, 5, 0x48, 0x65], 1, 6⟩)
        = some (false, some ⟨[7, 0, 0, 0, 5, 0x48, 0x65], 1, 6⟩)
    ∧ (some [0, 0, 0, 5, 0x48, 0x65] : Option (List Byte)) = some [0, 0, 0, 5, 0x48, 0x65]
    ∧ (some ⟨[7, 0, 0, 0, 5, 0x48, 0x65], 1, 6⟩ : Option StringPiece)
        = some ⟨[7, 0, 0, 0, 5, 0x48, 0x65], 1, 6⟩ :=
  ⟨by decide, by decide,
    (RemovePadding_failure_leaves_input 64 (2 ^ 64 - 17) (some [0, 0, 0, 5, 0x48, 0x65])
      (some ⟨[7, 0, 0, 0, 5, 0x48, 0x65], 1, 6⟩)).1 _ (by decide),
    (RemovePadding_failure_leaves_input 64 (2 ^ 64 - 17) (some [0, 0, 0, 5, 0x48, 0x65])
      (some ⟨[7, 0, 0, 0, 5, 0x48, 0x65], 1, 6⟩)).2 _ (by decide)⟩

/-- C6 (minimum size). On every buffer or view of fewer than 4 bytes, whatever
the bytes and whatever lies in the storage, `GetPayloadExtent` fails at its first
check (missing length field), before the header is read, and both overloads
return `false`. -/
theorem GetPayloadExtent_missing_length_field (w maxSize : Nat) (B : List Byte)
    (v : StringPiece) (hB : B.length < 4) (hv : v.size < 4) :
    GetPayloadExtent w (StringPiece.ofString B) = .error .MissingLengthField
    ∧ GetPayloadExtent w v = .error .MissingLengthField
    ∧ RemovePadding w maxSize (some B) = some (false, some B)
    ∧ RemovePaddingPiece w (some v) = some (false, some v) := by
  have h1 : GetPayloadExtent w (StringPiece.ofString B) = .error .MissingLengthField := by
    have hs : (StringPiece.ofString B).size < 4 := hB
    simp [GetPayloadExtent, sizeof_uint32_t, hs]
  have h2 : GetPayloadExtent w v = .error .MissingLengthField := by
    simp [GetPayloadExtent, sizeof_uint32_t, hv]
  exact ⟨h1, h2, RemovePadding_error w maxSize B _ h1, RemovePaddingPiece_error w v _ h2⟩

/-- C6 at a 3-byte buffer and at a 2-byte view of a longer storage. -/
theorem GetPayloadExtent_missing_length_field_three :
    ([0, 0, 5] : List Byte).length < 4 ∧ StringPiece.size ⟨[0, 0, 0, 1, 0x41], 0, 2⟩ < 4
    ∧ GetPayloadExtent 32 (StringPiece.ofString [0, 0, 5]) = .error .MissingLengthField
    ∧ GetPayloadExtent 32 ⟨[0, 0, 0, 1, 0x41], 0, 2⟩ = .error .MissingLengthField
    ∧ RemovePadding 32 (2 ^ 32 - 17) (some [0, 0, 5]) = some (false, some [0, 0, 5])
    ∧ RemovePaddingPiece 32 (some ⟨[0, 0, 0, 1, 0x41], 0, 2⟩)
        = some (false, some ⟨[0, 0, 0, 1, 0x41], 0, 2⟩) :=
  ⟨by decide, by decide,
    GetPayloadExtent_missing_length_field 32 (2 ^ 32 - 17) [0, 0, 5] ⟨[0, 0, 0, 1, 0x41], 0, 2⟩
      (by decide) (by decide)⟩

/-- C7 (shortfall), on a build with a 32-bit `size_t`, at the 6-byte buffer
`FF FF FF FE 48 65`: the header is `L = 4294967294 >= 1` and `4 <= N = 6 < 4 + L`,
yet `GetPayloadExtent` returns `true` and neither overload returns `false`.  The
scenario `00 00 00 05 48 65` of the specification does fail at the
payload-too-short check. -/
theorem GetPayloadExtent_shortfall_accepted_at_32 :
    headerValue [255, 255, 255, 254, 0x48, 0x65] = 4294967294
    ∧ 4 ≤ ([255, 255, 255, 254, 0x48, 0x65] : List Byte).length
    ∧ ([255, 255, 255, 254, 0x48, 0x65] : List Byte).length < 4 + 4294967294
    ∧ GetPayloadExtent 32 (StringPiece.ofString [255, 255, 255, 254, 0x48, 0x65])
        = .ok (4, 4294967294)
    ∧ RemovePadding 32 (2 ^ 32 - 17) (some [255, 255, 255, 254, 0x48, 0x65]) = none
    ∧ RemovePaddingPiece 32 (some (StringPiece.ofString [255, 255, 255, 254, 0x48, 0x65]))
        = some (true, some ⟨[255, 255, 255, 254, 0x48, 0x65], 4, 4294967294⟩)
    ∧ GetPayloadExtent 32 (StringPiece.ofString [0, 0, 0, 5, 0x48, 0x65])
        = .error .PayloadTooShort := by
  decide

/-- On a build whose `size_t` holds `2^32 + 3`, for every buffer `B` a `size_t`
can measure, the owned overload on a copy of `B` and the view overload on a view
of all of `B` return the same boolean, and when they return `true` the bytes left
in the owned buffer are the bytes the resulting view denotes. -/
theorem representations_agree_of_wide (w maxSize : Nat) (B : List Byte)
    (hw : 2 ^ 32 + 4 ≤ 2 ^ w) (hN : B.length < 2 ^ w) :
    (RemovePadding w maxSize (some B)).map Prod.fst
        = (RemovePaddingPiece w (some (StringPiece.ofString B))).map Prod.fst
    ∧ ∀ s v, RemovePadding w maxSize (some B) = some (true, some s) →
        RemovePaddingPiece w (some (StringPiece.ofString B)) = some (true, some v) →
        s = v.bytes := by
  have heq := RemovePadding_eq_view w maxSize B hw hN
  constructor
  · rw [heq, Option.map_map]
    rfl
  · intro s v hs hv
    rw [heq, hv] at hs
    simpa using hs.symm

/-- On a build whose `size_t` holds `2^32 + 3`, for every view
`(storage, ptr, length)` lying in its storage on which the view overload returns
`true`, with `d` the header value of the bytes the view denotes, the resulting
view is `(storage, ptr + 4, d)` over the same storage, its range
`[ptr + 4, ptr + 4 + d)` lies inside the input range `[ptr, ptr + length)`, and
it denotes the bytes `[4, 4 + d)` of the input view. -/
theorem narrows_of_wide (w : Nat) (v : StringPiece) (r : Option StringPiece)
    (hw : 2 ^ 32 + 4 ≤ 2 ^ w) (hwf : v.WellFormed w)
    (h : RemovePaddingPiece w (some v) = some (true, r)) :
    r = some ⟨v.storage, v.ptr + 4, headerValue v.bytes⟩
    ∧ v.ptr ≤ v.ptr + 4
    ∧ v.ptr + 4 + headerValue v.bytes ≤ v.ptr + v.length
    ∧ StringPiece.bytes ⟨v.storage, v.ptr + 4, headerValue v.bytes⟩
        = (v.bytes.drop 4).take (headerValue v.bytes) := by
  obtain ⟨h4, hd⟩ := RemovePaddingPiece_true_fits w v r hw h
  have hN : v.length < 2 ^ w := Nat.lt_of_le_of_lt (by have := hwf.1; omega) hwf.2
  rw [RemovePaddingPiece_of_fits w v hN h4 hd] at h
  rw [ReadBigEndian_data_eq v hwf.1 h4] at h hd
  refine ⟨?_, by omega, by omega, ?_⟩
  · simpa using h.symm
  · generalize headerValue v.bytes = d at hd
    simp only [StringPiece.bytes, List.drop_take, List.drop_drop, List.take_take]
    rw [Nat.min_eq_left (by omega), Nat.add_comm]

/-- C10 (padding is never inspected). For every two buffers with the same header
value `d`, both at least `4 + d` bytes long and equal on their first `4 + d`
bytes, both overloads return `true` on both and leave the same payload
`B1[4 .. 4+d)`, whatever lies beyond offset `4 + d` and however long it is. -/
theorem RemovePadding_ignores_padding (w maxSize : Nat) (B1 B2 : List Byte) (d : Nat)
    (hN1 : B1.length < 2 ^ w) (hN2 : B2.length < 2 ^ w)
    (hd1 : headerValue B1 = d) (hd2 : headerValue B2 = d)
    (hl1 : 4 + d ≤ B1.length) (hl2 : 4 + d ≤ B2.length)
    (hagree : B1.take (4 + d) = B2.take (4 + d)) :
    RemovePadding w maxSize (some B1) = some (true, some ((B1.drop 4).take d))
    ∧ RemovePadding w maxSize (some B2) = some (true, some ((B1.drop 4).take d))
    ∧ ∃ v1 v2,
        RemovePaddingPiece w (some (StringPiece.ofString B1)) = some (true, some v1)
        ∧ RemovePaddingPiece w (some (StringPiece.ofString B2)) = some (true, some v2)
        ∧ v1.bytes = (B1.drop 4).take d ∧ v2.bytes = (B1.drop 4).take d := by
  have hr1 : ReadBigEndian B1 = d := by
    rw [ReadBigEndian_eq_headerValue B1 (by omega)]
    exact hd1
  have hr2 : ReadBigEndian B2 = d := by
    rw [ReadBigEndian_eq_headerValue B2 (by omega)]
    exact hd2
  have hpay : (B2.drop 4).take d = (B1.drop 4).take d := by
    rw [List.take_drop, List.take_drop, hagree]
  have ho1 := RemovePadding_of_fits w maxSize B1 hN1 (by omega) (by omega)
  have ho2 := RemovePadding_of_fits w maxSize B2 hN2 (by omega) (by omega)
  have hv1 := RemovePaddingPiece_of_fits w (StringPiece.ofString B1)
    (by rw [ofString_size]; exact hN1) (by rw [ofString_size]; omega)
    (by rw [ofString_size, ofString_data]; omega)
  have hv2 := RemovePaddingPiece_of_fits w (StringPiece.ofString B2)
    (by rw [ofString_size]; exact hN2) (by rw [ofString_size]; omega)
    (by rw [ofString_size, ofString_data]; omega)
  rw [hr1] at ho1
  rw [hr2, hpay] at ho2
  rw [ofString_data, hr1] at hv1
  rw [ofString_data, hr2] at hv2
  refine ⟨ho1, ho2, _, _, hv1, hv2, ?_, ?_⟩
  · simp [StringPiece.bytes, StringPiece.ofString]
  · simp only [StringPiece.bytes, StringPiece.ofString, Nat.zero_add]
    exact hpay

/-- C10 at two buffers carrying `Hi` with different paddings, `AA BB CC` and `01`. -/
theorem RemovePadding_ignores_padding_hi :
    ([0, 0, 0, 2, 0x48, 0x69, 0xAA, 0xBB, 0xCC] : List Byte).length < 2 ^ 32
    ∧ ([0, 0, 0, 2, 0x48, 0x69, 0x01] : List Byte).length < 2 ^ 32
    ∧ headerValue [0, 0, 0, 2, 0x48, 0x69, 0xAA, 0xBB, 0xCC] = 2
    ∧ headerValue [0, 0, 0, 2, 0x48, 0x69, 0x01] = 2
    ∧ 4 + 2 ≤ ([0, 0, 0, 2, 0x48, 0x69, 0xAA, 0xBB, 0xCC] : List Byte).length
    ∧ 4 + 2 ≤ ([0, 0, 0, 2, 0x48, 0x69, 0x01] : List Byte).length
    ∧ List.take (4 + 2) ([0, 0, 0, 2, 0x48, 0x69, 0xAA, 0xBB, 0xCC] : List Byte)
        = List.take (4 + 2) [0, 0, 0, 2, 0x48, 0x69, 0x01]
    ∧ RemovePadding 32 (2 ^ 32 - 17) (some [0, 0, 0, 2, 0x48, 0x69, 0xAA, 0xBB, 0xCC])
        = some (true, some [0x48, 0x69])
    ∧ RemovePadding 32 (2 ^ 32 - 17) (some [0, 0, 0, 2, 0x48, 0x69, 0x01])
        = some (true, some [0x48, 0x69]) :=
  ⟨by decide, by decide, by decide, by decide, by decide, by decide, by decide,
   (RemovePadding_ignores_padding 32 (2 ^ 32 - 17)
      [0, 0, 0, 2, 0x48, 0x69, 0xAA, 0xBB, 0xCC] [0, 0, 0, 2, 0x48, 0x69, 0x01] 2
      (by decide) (by decide) (by decide) (by decide) (by decide) (by decide) (by decide)).1,
   (RemovePadding_ignores_padding 32 (2 ^ 32 - 17)
      [0, 0, 0, 2, 0x48, 0x69, 0xAA, 0xBB, 0xCC] [0, 0, 0, 2, 0x48, 0x69, 0x01] 2
      (by decide) (by decide) (by decide) (by decide) (by decide) (by decide) (by decide)).2.1⟩

/-! ## Further lemmas on successful calls -/

/-- A normal `true` return of the owned overload leaves the declared slice. -/
theorem RemovePadding_true_result (w maxSize : Nat) (B : List Byte) (r : Option (List Byte))
    (hmax : maxSize + 4 < 2 ^ w)
    (h : RemovePadding w maxSize (some B) = some (true, r)) :
    4 ≤ B.length ∧ headerValue B + 4 ≤ B.length
      ∧ r = some ((B.drop 4).take (headerValue B)) := by
  obtain ⟨h4, hd⟩ := RemovePadding_true_fits w maxSize B r hmax h
  have hfit : ReadBigEndian B ≤ (B.drop 4).length := by
    rw [List.length_drop]
    omega
  cases hext : GetPayloadExtent w (StringPiece.ofString B) with
  | error e =>
    rw [RemovePadding_error w maxSize B e hext] at h
    simp at h
  | ok r0 =>
    rw [RemovePadding_ok w maxSize B r0 hext, resize_truncates _ _ _ hfit,
      Option.some_bind] at h
    rw [ReadBigEndian_eq_headerValue B h4] at h hd
    refine ⟨h4, hd, ?_⟩
    simpa using h.symm

/-- On a build whose `size_t` holds `2^32 + 3`, a `true` return of the view
overload leaves the declared sub-view. -/
theorem RemovePaddingPiece_true_result (w : Nat) (v : StringPiece) (r : Option StringPiece)
    (hw : 2 ^ 32 + 4 ≤ 2 ^ w) (hwf : v.WellFormed w)
    (h : RemovePaddingPiece w (some v) = some (true, r)) :
    4 ≤ v.length ∧ headerValue v.bytes + 4 ≤ v.length
      ∧ r = some ⟨v.storage, v.ptr + 4, headerValue v.bytes⟩ := by
  obtain ⟨h4, hd⟩ := RemovePaddingPiece_true_fits w v r hw h
  have hN : v.length < 2 ^ w := Nat.lt_of_le_of_lt (by have := hwf.1; omega) hwf.2
  rw [RemovePaddingPiece_of_fits w v hN h4 hd] at h
  rw [ReadBigEndian_data_eq v hwf.1 h4] at h hd
  refine ⟨h4, hd, ?_⟩
  simpa using h.symm

/-- On a build whose `size_t` holds `2^32 + 3`, an extent `GetPayloadExtent`
reports lies inside the sequence, the `size_t` difference passed to
`remove_suffix` is exact and at most the current size, and `resize` gets a
length no larger than what `erase` left. -/
theorem extent_in_bounds_of_wide (w : Nat) (v : StringPiece) (r : Nat × Nat)
    (hw : 2 ^ 32 + 4 ≤ 2 ^ w) (hN : v.size < 2 ^ w)
    (h : GetPayloadExtent w v = .ok r) :
    r.1 + r.2 ≤ v.size
    ∧ (v.size - r.1 + 2 ^ w - r.2) % 2 ^ w = v.size - r.1 - r.2
    ∧ (v.size - r.1 + 2 ^ w - r.2) % 2 ^ w ≤ v.size - r.1
    ∧ r.2 ≤ v.size - r.1 := by
  have hall := (GetPayloadExtent_ok_iff w v r).1 h
  have hlt := ReadBigEndian_lt v.data
  have hmod : (ReadBigEndian v.data + 4) % 2 ^ w = ReadBigEndian v.data + 4 :=
    Nat.mod_eq_of_lt (by omega)
  obtain ⟨h4, hd, hr⟩ := hall
  rw [hmod] at hd
  subst hr
  have hsub := size_sub_exact w (v.size - 4) (ReadBigEndian v.data) (by omega) (by omega)
  simp only
  refine ⟨by omega, hsub, ?_, by omega⟩
  rw [hsub]
  omega

/-! ## The claims, continued -/

/-- C11 (null input), as stated, at a 64-bit build: the value the owned overload
returns for a null pointer is the value it returns for `00 00 05` (missing length
field) and for `00 00 00 05 48 65` (payload too short), and likewise for the
view overload, so the returned value does not set the null case apart. -/
theorem RemovePadding_null_not_distinct :
    GetPayloadExtent 64 (StringPiece.ofString [0, 0, 5]) = .error .MissingLengthField
    ∧ GetPayloadExtent 64 (StringPiece.ofString [0, 0, 0, 5, 0x48, 0x65])
        = .error .PayloadTooShort
    ∧ (RemovePadding 64 (2 ^ 64 - 17) none).map Prod.fst
        = (RemovePadding 64 (2 ^ 64 - 17) (some [0, 0, 5])).map Prod.fst
    ∧ (RemovePadding 64 (2 ^ 64 - 17) none).map Prod.fst
        = (RemovePadding 64 (2 ^ 64 - 17) (some [0, 0, 0, 5, 0x48, 0x65])).map Prod.fst
    ∧ (RemovePaddingPiece 64 none).map Prod.fst
        = (RemovePaddingPiece 64 (some (StringPiece.ofString [0, 0, 5]))).map Prod.fst
    ∧ (RemovePaddingPiece 64 none).map Prod.fst
        = (RemovePaddingPiece 64
            (some (StringPiece.ofString [0, 0, 0, 5, 0x48, 0x65]))).map Prod.fst := by
  decide

/-- C11, amended. Called with a null pointer, either overload returns `false`
and the pointer stays null, nothing being read through it; that `false` is the
same value either overload returns when `GetPayloadExtent` fails, at whichever
check. -/
theorem RemovePadding_null_returns_false (w maxSize : Nat) :
    RemovePadding w maxSize none = some (false, none)
    ∧ RemovePaddingPiece w none = some (false, none)
    ∧ ∀ (B : List Byte) (v : StringPiece) (e1 e2 : ExtentFailure),
        GetPayloadExtent w (StringPiece.ofString B) = .error e1 →
        GetPayloadExtent w v = .error e2 →
        (RemovePadding w maxSize (some B)).map Prod.fst
            = (RemovePadding w maxSize none).map Prod.fst
        ∧ (RemovePaddingPiece w (some v)).map Prod.fst
            = (RemovePaddingPiece w none).map Prod.fst := by
  refine ⟨rfl, rfl, ?_⟩
  intro B v e1 e2 h1 h2
  rw [RemovePadding_error w maxSize B e1 h1, RemovePaddingPiece_error w v e2 h2]
  exact ⟨rfl, rfl⟩

/-- C11, amended, at a 3-byte buffer and a truncated view on a 32-bit build. -/
theorem RemovePadding_null_returns_false_short :
    GetPayloadExtent 32 (StringPiece.ofString [0, 0, 5]) = .error .MissingLengthField
    ∧ GetPayloadExtent 32 ⟨[0, 0, 0, 5, 0x48, 0x65], 0, 6⟩ = .error .PayloadTooShort
    ∧ (RemovePadding 32 (2 ^ 32 - 17) (some [0, 0, 5])).map Prod.fst
        = (RemovePadding 32 (2 ^ 32 - 17) none).map Prod.fst
    ∧ (RemovePaddingPiece 32 (some ⟨[0, 0, 0, 5, 0x48, 0x65], 0, 6⟩)).map Prod.fst
        = (RemovePaddingPiece 32 none).map Prod.fst :=
  ⟨by decide, by decide,
    (RemovePadding_null_returns_false 32 (2 ^ 32 - 17)).2.2 [0, 0, 5]
      ⟨[0, 0, 0, 5, 0x48, 0x65], 0, 6⟩ .MissingLengthField .PayloadTooShort
      (by decide) (by decide)⟩

/-- C12 (exact fit and empty payload). For every buffer `B` of at least 4 bytes
that a `size_t` can measure: if its length is exactly `4 + L` for its header
value `L`, both overloads return `true` and yield all `L` bytes after the
header, none discarded; if its header value is `0`, both return `true` and
yield the empty payload. -/
theorem RemovePadding_exact_fit (w maxSize : Nat) (B : List Byte) (hN : B.length < 2 ^ w)
    (h4 : 4 ≤ B.length) :
    (headerValue B + 4 = B.length →
        RemovePadding w maxSize (some B) = some (true, some (B.drop 4))
        ∧ (B.drop 4).length = headerValue B
        ∧ RemovePaddingPiece w (some (StringPiece.ofString B))
            = some (true, some ⟨B, 4, headerValue B⟩)
        ∧ StringPiece.bytes ⟨B, 4, headerValue B⟩ = B.drop 4)
    ∧ (headerValue B = 0 →
        RemovePadding w maxSize (some B) = some (true, some [])
        ∧ RemovePaddingPiece w (some (StringPiece.ofString B)) = some (true, some ⟨B, 4, 0⟩)
        ∧ StringPiece.bytes ⟨B, 4, 0⟩ = []) := by
  have hr := ReadBigEndian_eq_headerValue B h4
  constructor
  · intro hfit
    have ho := RemovePadding_of_fits w maxSize B hN h4 (by omega)
    have hv := RemovePaddingPiece_of_fits w (StringPiece.ofString B)
      (by rw [ofString_size]; exact hN) (by rw [ofString_size]; exact h4)
      (by rw [ofString_size, ofString_data]; omega)
    have hlen : (B.drop 4).length = headerValue B := by
      rw [List.length_drop]
      omega
    have htake : (B.drop 4).take (headerValue B) = B.drop 4 :=
      List.take_of_length_le (by omega)
    rw [hr, htake] at ho
    rw [ofString_data, hr] at hv
    refine ⟨ho, hlen, hv, ?_⟩
    simp only [StringPiece.bytes]
    exact htake
  · intro hzero
    have ho := RemovePadding_of_fits w maxSize B hN h4 (by omega)
    have hv := RemovePaddingPiece_of_fits w (StringPiece.ofString B)
      (by rw [ofString_size]; exact hN) (by rw [ofString_size]; exact h4)
      (by rw [ofString_size, ofString_data]; omega)
    rw [hr, hzero, List.take_zero] at ho
    rw [ofString_data, hr, hzero] at hv
    refine ⟨ho, hv, ?_⟩
    simp [StringPiece.bytes]

/-- C12 at the 4-byte buffer `00 00 00 00` on a 32-bit build: an exact fit with
header 0, which succeeds with the empty payload. -/
theorem RemovePadding_exact_fit_empty :
    ([0, 0, 0, 0] : List Byte).length < 2 ^ 32
    ∧ 4 ≤ ([0, 0, 0, 0] : List Byte).length
    ∧ headerValue [0, 0, 0, 0] + 4 = ([0, 0, 0, 0] : List Byte).length
    ∧ headerValue [0, 0, 0, 0] = 0
    ∧ RemovePadding 32 (2 ^ 32 - 17) (some [0, 0, 0, 0])
        = some (true, some (List.drop 4 [0, 0, 0, 0]))
    ∧ RemovePadding 32 (2 ^ 32 - 17) (some [0, 0, 0, 0]) = some (true, some [])
    ∧ RemovePaddingPiece 32 (some (StringPiece.ofString [0, 0, 0, 0]))
        = some (true, some ⟨[0, 0, 0, 0], 4, 0⟩) :=
  ⟨by decide, by decide, by decide, by decide,
    ((RemovePadding_exact_fit 32 (2 ^ 32 - 17) [0, 0, 0, 0] (by decide) (by decide)).1
      (by decide)).1,
    ((RemovePadding_exact_fit 32 (2 ^ 32 - 17) [0, 0, 0, 0] (by decide) (by decide)).2
      (by decide)).1,
    ((RemovePadding_exact_fit 32 (2 ^ 32 - 17) [0, 0, 0, 0] (by decide) (by decide)).2
      (by decide)).2.1⟩

/-- C13 (extent in bounds), on a build with a 32-bit `size_t`, at the 6-byte
buffer `FF FF FF FC 01 02`: `GetPayloadExtent` returns `true` with `start = 4`,
`length = 4294967292`, so `start + length > N = 6`; after `remove_prefix(4)` the
view has size 2 and the difference `size() - length` underflows to `6 > 2`;
after `erase(0, 4)` the string has 2 bytes and `resize` is asked for more. -/
theorem GetPayloadExtent_out_of_bounds_at_32 :
    GetPayloadExtent 32 (StringPiece.ofString [255, 255, 255, 252, 1, 2])
        = .ok (4, 4294967292)
    ∧ ¬ (4 + 4294967292 ≤ (StringPiece.ofString [255, 255, 255, 252, 1, 2]).size)
    ∧ StringPiece.remove_prefix 32 (StringPiece.ofString [255, 255, 255, 252, 1, 2]) 4
        = ⟨[255, 255, 255, 252, 1, 2], 4, 2⟩
    ∧ (StringPiece.size ⟨[255, 255, 255, 252, 1, 2], 4, 2⟩ + 2 ^ 32 - 4294967292) % 2 ^ 32 = 6
    ∧ ¬ (6 ≤ StringPiece.size ⟨[255, 255, 255, 252, 1, 2], 4, 2⟩)
    ∧ erase [255, 255, 255, 252, 1, 2] 0 4 = some [1, 2]
    ∧ ¬ (4294967292 ≤ ([1, 2] : List Byte).length) := by
  decide

/-- Whenever the owned overload returns `true` on a buffer of length `N` with
header value `d`, the payload fits (`d + 4 ≤ N`), the result is shorter than the
input by exactly `4 + (N - 4 - d)`, hence by at least 4, and differs from the
input. -/
theorem discarded_bytes_owned (w maxSize : Nat) (B : List Byte) (r : Option (List Byte))
    (hmax : maxSize + 4 < 2 ^ w)
    (h : RemovePadding w maxSize (some B) = some (true, r)) :
    ∃ B', r = some B' ∧ headerValue B + 4 ≤ B.length
      ∧ B'.length + (4 + (B.length - 4 - headerValue B)) = B.length
      ∧ B'.length + 4 ≤ B.length ∧ B' ≠ B := by
  obtain ⟨h4, hd, hr⟩ := RemovePadding_true_result w maxSize B r hmax h
  have hlen : ((B.drop 4).take (headerValue B)).length = headerValue B := by
    rw [List.length_take, List.length_drop]
    omega
  refine ⟨_, hr, hd, by omega, by omega, ?_⟩
  intro heq
  have := congrArg List.length heq
  omega

/-- On a build whose `size_t` holds `2^32 + 3`, whenever the view overload
returns `true` on a view of length `N` with header value `d`, the payload fits,
the resulting view is shorter by exactly `4 + (N - 4 - d)`, hence by at least 4,
and differs from the input. -/
theorem discarded_bytes_view_of_wide (w : Nat) (v : StringPiece) (r : Option StringPiece)
    (hw : 2 ^ 32 + 4 ≤ 2 ^ w) (hwf : v.WellFormed w)
    (h : RemovePaddingPiece w (some v) = some (true, r)) :
    ∃ v', r = some v' ∧ headerValue v.bytes + 4 ≤ v.length
      ∧ v'.length + (4 + (v.length - 4 - headerValue v.bytes)) = v.length
      ∧ v'.length + 4 ≤ v.length ∧ v' ≠ v := by
  obtain ⟨h4, hd, hr⟩ := RemovePaddingPiece_true_result w v r hw hwf h
  refine ⟨_, hr, hd, ?_, ?_, ?_⟩
  · show headerValue v.bytes + (4 + (v.length - 4 - headerValue v.bytes)) = v.length
    omega
  · show headerValue v.bytes + 4 ≤ v.length
    omega
  · intro heq
    have := congrArg StringPiece.ptr heq
    simp at this

end PrivateCdn
